import Mathlib

/-!
Verification development for the AmaHunter price-comparison backend
(`src/main.py`).  The Python source is shallowly embedded: strings are
`List Char`, Python floats are modelled as exact rationals `ℚ`, fallible
code returns `Option`/`Except`, and the upstream scraping source, SMTP
notifier and SQLite store are modelled as explicit parameters (per the
design notes of the specification, §9).

An important fact about the source file: the HTML-parsing block of
`oxylabs_amazon_price` (lines 209-304 of `src/main.py`) is dedented to
module level, so the function body as written ends right after the HTML
fetch (implicitly returning `None`), and line 304 is a `return` outside
any function (the module cannot even compile).  Both the function *as
written* (`oxylabs_amazon_price`) and the function obtained by
re-indenting that block back into the function, as the docstring
describes (`oxylabs_amazon_price_intended`), are embedded below.
-/

namespace AmaHunter

/-! ### Character and string helpers -/

/-- Python `str.strip()` whitespace class, restricted to the code points
that can actually occur in the strings this program manipulates
(ASCII whitespace plus NBSP and NNBSP, which Python's `str.isspace`
also treats as whitespace). -/
def wsp (c : Char) : Bool :=
  c = ' ' || c = '\t' || c = '\n' || c = '\r' ||
  c = '\x0b' || c = '\x0c' || c = '\u00A0' || c = '\u202F'

/-- Python `s.strip()`: drop leading and trailing whitespace. -/
def pyStrip (l : List Char) : List Char :=
  ((l.dropWhile wsp).reverse.dropWhile wsp).reverse

/-- Python `s.replace(x, "")` for a single-character pattern `x`. -/
def stripCh (x : Char) (l : List Char) : List Char :=
  l.filter (fun c => c != x)

/-- Python `s.replace("EUR", "")`: remove every (non-overlapping,
left-to-right) occurrence of the three-character pattern `EUR`. -/
def removeEUR : List Char → List Char
  | [] => []
  | [c] => [c]
  | [c1, c2] => [c1, c2]
  | c1 :: c2 :: c3 :: rest =>
    if c1 = 'E' ∧ c2 = 'U' ∧ c3 = 'R' then removeEUR rest
    else c1 :: removeEUR (c2 :: c3 :: rest)

/-- Python `s.replace(",", ".")`. -/
def mapCommaDot (l : List Char) : List Char :=
  l.map (fun c => if c = ',' then '.' else c)

/-- Numeric value of a decimal digit string (`'0'`-`'9'` only). -/
def natVal (l : List Char) : ℕ :=
  l.foldl (fun a c => 10 * a + (c.toNat - 48)) 0

/-! ### The regex `[0-9]+(?:\.[0-9]{1,2})?` (first match)

Used by the structured-tier normalizer (line 192 of the source, via
`re.findall(...)[0]`) and by the HTML-tier normalizers (`re.search`).
A match starts at the leftmost digit; `[0-9]+` greedily takes the
maximal digit run; the optional group takes a dot followed by one or
two digits (greedily two) when present. -/

/-- Match the regex at a position known to start with a digit. -/
def matchNum (cs : List Char) : List Char :=
  let ds := cs.takeWhile Char.isDigit
  let rest := cs.dropWhile Char.isDigit
  match rest with
  | '.' :: r2 =>
    let fs := r2.takeWhile Char.isDigit
    if fs = [] then ds else ds ++ '.' :: fs.take 2
  | _ => ds

/-- Leftmost match of `[0-9]+(?:\.[0-9]{1,2})?` in the string. -/
def firstNumToken : List Char → Option (List Char)
  | [] => none
  | c :: cs => if c.isDigit then some (matchNum (c :: cs)) else firstNumToken cs

/-- Python `float(...)` on a matched numeric token
`digits(.digits)?` — modelled as the exact decimal value in `ℚ`. -/
def parseDec (cs : List Char) : Option ℚ :=
  let ip := cs.takeWhile Char.isDigit
  let rest := cs.dropWhile Char.isDigit
  if ip = [] then none
  else match rest with
    | [] => some (natVal ip : ℚ)
    | '.' :: fr =>
      if fr ≠ [] ∧ fr.all Char.isDigit then
        some ((natVal ip : ℚ) + (natVal fr : ℚ) / 10 ^ fr.length)
      else none
    | _ => none

/-! ### The structured-tier price normalizer (source lines 181-194)

`price.replace(" ", "").replace("\xa0", "").replace("€", "")
.replace("EUR", "").replace(".", "").replace(",", ".").strip()`,
then `float(re.findall(r"[0-9]+(?:\.[0-9]{1,2})?", norm)[0])`,
with any failure mapped to `None`. -/

/-- The replacement pipeline of lines 182-189, in source order. -/
def normPipeline (s : List Char) : List Char :=
  pyStrip (mapCommaDot (stripCh '.'
    (removeEUR (stripCh '€' (stripCh '\u00A0' (stripCh '\u202F' s))))))

/-- Textual price normalization of the structured tier
(lines 181-194): returns `none` when no numeric token is found. -/
def normalizeStr (s : List Char) : Option ℚ :=
  (firstNumToken (normPipeline s)).bind parseDec

/-! ### The identifier extractor (source lines 127-135)

`ASIN_RE = re.compile(r"/(dp|gp/product)/([A-Z0-9]{10})|^([A-Z0-9]{10})$")`
searched over the stripped input; returns group 2 or group 3. -/

/-- The character class `[A-Z0-9]`. -/
def isAsinChar (c : Char) : Bool :=
  ('A' ≤ c && c ≤ 'Z') || ('0' ≤ c && c ≤ '9')

/-- Drop an exact prefix, or fail. -/
def dropPfx : List Char → List Char → Option (List Char)
  | [], cs => some cs
  | _ :: _, [] => none
  | p :: ps, c :: cs => if p = c then dropPfx ps cs else none

/-- Match `[A-Z0-9]{10}` at the start of `r` (no trailing anchor,
exactly as in the first alternation branch of `ASIN_RE`). -/
def take10A (r : List Char) : Option (List Char) :=
  if (r.take 10).length = 10 ∧ (r.take 10).all isAsinChar then some (r.take 10)
  else none

/-- First alternation branch `/(dp|gp/product)/([A-Z0-9]{10})` tried at
one position; `dp` is tried before `gp/product`, as in the pattern. -/
def b1At (cs : List Char) : Option (List Char) :=
  match dropPfx ['/', 'd', 'p', '/'] cs with
  | some r => take10A r
  | none =>
    match dropPfx ['/', 'g', 'p', '/', 'p', 'r', 'o', 'd', 'u', 'c', 't', '/'] cs with
    | some r => take10A r
    | none => none

/-- Whole-string branch `^([A-Z0-9]{10})$` (only applicable when the
scan is still at the start of the string). -/
def isFullAsin (t : List Char) : Bool :=
  t.length = 10 && t.all isAsinChar

/-- `re.search` over the alternation: positions are tried left to
right; at each position the first branch is tried, and the anchored
second branch only at the start of the string. -/
def searchA : List Char → Bool → Option (List Char)
  | [], atStart => if atStart ∧ isFullAsin [] then some [] else none
  | c :: rest, atStart =>
    match b1At (c :: rest) with
    | some r => some r
    | none =>
      if atStart ∧ isFullAsin (c :: rest) then some (c :: rest)
      else searchA rest false

/-- `extract_asin` (source lines 130-135): strip the input, search
`ASIN_RE`, return the matched identifier group or `None`.  The
embedding is a total function: the Python original likewise never
raises, for any input string. -/
def extract_asin (s : String) : Option String :=
  (searchA (pyStrip s.data) true).map (fun l => String.mk l)

/-! ### Configuration maps (source lines 24-44)

Loaded once at process start; modelled with their default values
(`AFFILIATE_TAG_*` default to `""`, `ALLOWED_COUNTRIES` defaults to
`FR,DE,BE`).  A missing key raises `KeyError` in Python; lookups are
therefore `Option`-valued here. -/

def COUNTRY_TO_DOMAIN (c : String) : Option String :=
  if c = "FR" then some "amazon.fr"
  else if c = "DE" then some "amazon.de"
  else if c = "BE" then some "amazon.com.be"
  else none

def COUNTRY_TO_GEO (c : String) : Option String :=
  if c = "FR" then some "France"
  else if c = "DE" then some "Germany"
  else if c = "BE" then some "Belgium"
  else none

/-- `AFF_TAGS.get(country, "")` with the environment defaults (empty
affiliate tags). -/
def AFF_TAGS (_c : String) : String := ""

def ALLOWED_COUNTRIES : List String := ["FR", "DE", "BE"]

/-- `affiliate_link` (source lines 138-142).  `COUNTRY_TO_DOMAIN[country]`
raises `KeyError` for an unmapped country, hence the `Option` result. -/
def affiliate_link (asin country : String) : Option String :=
  (COUNTRY_TO_DOMAIN country).map (fun domain =>
    let tag := AFF_TAGS country
    let tail := if tag = "" then "" else "?tag=" ++ tag
    "https://" ++ domain ++ "/dp/" ++ asin ++ tail)

/-! ### Structured-response content model (source lines 170-197)

JSON values reached by the structured tier.  Containers
(`buybox_winner`, `buybox`) are modelled as objects consulted only for
their `"price"` key; `(d or {}).get("price")` on a falsy container
(absent key, `null`, or an empty dict) yields `None`, which the
`Option`-bind below reproduces. -/

/-- A JSON scalar that can sit in a `price` field.  `pcoll` stands for
a list or object value, of which this code only ever observes
truthiness.  Python `bool` is a subtype of `int`, so `pbool` passes the
`isinstance(price, (int, float))` check. -/
inductive PVal
  | pstr (s : List Char)
  | pnum (q : ℚ)
  | pbool (b : Bool)
  | pnull
  | pcoll (nonempty : Bool)
deriving DecidableEq

/-- Python truthiness of a `PVal`. -/
def PVal.truthy : PVal → Bool
  | .pstr s => !s.isEmpty
  | .pnum q => q != 0
  | .pbool b => b
  | .pnull => false
  | .pcoll ne => ne

/-- A JSON object consulted only for its `"price"` key. -/
structure PriceDict where
  price : Option PVal
deriving DecidableEq

/-- The parsed `content` object of a structured response:
the three fields lines 176-178 consult. -/
structure Content where
  buybox_winner : Option PriceDict
  price : Option PVal
  buybox : Option (Option PriceDict)
deriving DecidableEq

/-- `content` may fail `isinstance(content, dict)` (line 174), e.g.
when the upstream returns a string; the whole structured tier is then
skipped. -/
inductive ContentV
  | dict (c : Content)
  | nondict
deriving DecidableEq

/-- Python `a or b` where `a` is a lookup result (`None` when the key
is absent): returns `a` when truthy, else `b`. -/
def pvOr (a b : Option PVal) : Option PVal :=
  match a with
  | some v => if v.truthy then some v else b
  | none => b

/-- The structured-tier price extraction and normalization
(source lines 173-197): `buybox_winner.price or price`, then
`buybox.price` if still `None`; a string value goes through
`normalizeStr`; a numeric (or boolean) value is returned as
`float(price)` unchanged. -/
def structuredPrice (c : Content) : Option ℚ :=
  let bwp : Option PVal := c.buybox_winner.bind PriceDict.price
  let p0 : Option PVal := pvOr bwp c.price
  let p1 : Option PVal :=
    match p0, c.buybox with
    | none, some bb => bb.bind PriceDict.price
    | _, _ => p0
  let p2 : Option PVal :=
    match p1 with
    | some (.pstr s) => (normalizeStr s).map PVal.pnum
    | x => x
  match p2 with
  | some (.pnum q) => some q
  | some (.pbool b) => some (if b then 1 else 0)
  | _ => none

/-- Lines 170-174: a non-dict `content` skips the tier entirely. -/
def structuredPriceV : ContentV → Option ℚ
  | .dict c => structuredPrice c
  | .nondict => none

/-! ### HTML document model (source lines 210-304)

The markup returned by the HTML fallback is abstracted by the results
of the exact queries the parsing code performs on it: the JSON-LD
`offers.price` values, the text of each probed CSS selector (as
`get_text(strip=True)` would return it), and the raw markup text for
the final regex scan.  A selector field is `none` when the selector
matches no element. -/

/-- One `<script type="application/ld+json">` block after
`json.loads`: a list of objects, a single object, or anything else
(parse failure, or a non-list/dict document, both of which the code
skips).  For each object only `str(offers["price"])` is retained, and
`none` stands for an absent `offers` key, a non-dict `offers` value,
or a falsy price (all skipped by `if val:`). -/
inductive LdDoc
  | arr (prices : List (Option (List Char)))
  | obj (price : Option (List Char))
  | bad
deriving DecidableEq

structure Html where
  ldScripts : List LdDoc
  aPriceOffscreen : Option (List Char)
  apexOffscreen : Option (List Char)
  corePriceOffscreen : Option (List Char)
  priceblockOurprice : Option (List Char)
  priceblockDealprice : Option (List Char)
  priceblockSaleprice : Option (List Char)
  anyAOffscreen : Option (List Char)
  raw : List Char
deriving DecidableEq

/-- `if n and n.get_text(strip=True)`: a selector hit with nonempty
text. -/
def nonemptyText (o : Option (List Char)) : Option (List Char) :=
  o.bind (fun t => if t = [] then none else some t)

/-- `pick_price_text` (source lines 213-230): probe the selectors in
order and return the first nonempty text. -/
def pick_price_text (h : Html) : Option (List Char) :=
  nonemptyText h.aPriceOffscreen <|>
  nonemptyText h.apexOffscreen <|>
  nonemptyText h.corePriceOffscreen <|>
  nonemptyText h.priceblockOurprice <|>
  nonemptyText h.priceblockDealprice <|>
  nonemptyText h.priceblockSaleprice <|>
  nonemptyText h.anyAOffscreen

/-- The JSON-LD normalizer (source lines 244-247 and 253-255):
`str(val).replace(" ", "").replace("\xa0", "").replace(",", ".")`
then `re.search(r"[0-9]+(?:\.[0-9]{1,2})?", s)` and `float`. -/
def ldNormalize (s : List Char) : Option ℚ :=
  (firstNumToken (mapCommaDot (stripCh '\u00A0' (stripCh '\u202F' s)))).bind parseDec

/-- First non-`None` element, in order. -/
def firstSome : List (Option ℚ) → Option ℚ
  | [] => none
  | some q :: _ => some q
  | none :: rest => firstSome rest

/-- Price extracted from one JSON-LD block (the loop of lines 235-260:
within a list, the first item whose regex matches wins). -/
def ldDocPrice : LdDoc → Option ℚ
  | .arr ps => firstSome (ps.map (fun p => p.bind ldNormalize))
  | .obj p => p.bind ldNormalize
  | .bad => none

/-- Strategy A (JSON-LD): first script block that yields a price
(outer `if price is not None: break`). -/
def ldPrice (docs : List LdDoc) : Option ℚ :=
  firstSome (docs.map ldDocPrice)

/-- The visible-text normalizer of strategy B (source lines 266-271):
same replacement chain as the structured tier but with no final
`strip()` (which the regex search does not need anyway). -/
def normalizeB (s : List Char) : Option ℚ :=
  (firstNumToken (mapCommaDot (stripCh '.'
    (removeEUR (stripCh '\u20AC' (stripCh '\u00A0' (stripCh '\u202F' s))))))).bind parseDec

/-! #### Strategy C: the raw regex scan (source lines 275-282)

`re.search(r"([0-9][0-9\.,\s  ]+)\s?(€|EUR)", html)`, then
`float` of group 1 with ` `, `\xa0`, `" "`, `"."` removed and
`","` mapped to `"."`. -/

/-- The character class `[0-9\.,\s  ]` (with `re.UNICODE`,
`\s` covers the ASCII whitespace plus the two non-breaking spaces,
which appear explicitly in the class as well). -/
def clsChar (c : Char) : Bool :=
  c.isDigit || c = '.' || c = ',' || wsp c

/-- Does `\s?(€|EUR)` match at the start of `t`?  The optional
whitespace is consumed greedily first, with backtracking to the empty
alternative. -/
def startsEuro (t : List Char) : Bool :=
  match t with
  | '€' :: _ => true
  | 'E' :: 'U' :: 'R' :: _ => true
  | _ => false

def matchTailEuro (t : List Char) : Bool :=
  match t with
  | w :: r => (wsp w && startsEuro r) || startsEuro t
  | [] => startsEuro t

/-- Backtracking over the greedy `+`: try the longest class run first,
shrinking it one character at a time (but never below one character). -/
def tryRunAux (d : Char) (run rest : List Char) : ℕ → Option (List Char)
  | 0 => none
  | (k + 1) =>
    if matchTailEuro (run.drop (k + 1) ++ rest) then some (d :: run.take (k + 1))
    else tryRunAux d run rest k

/-- Leftmost match of the raw-scan pattern; returns group 1. -/
def rawScan : List Char → Option (List Char)
  | [] => none
  | c :: rest =>
    if c.isDigit then
      let run := rest.takeWhile clsChar
      let after := rest.dropWhile clsChar
      match tryRunAux c run after run.length with
      | some g1 => some g1
      | none => rawScan rest
    else rawScan rest

/-- The group-1 cleanup of lines 277-278: remove ` `, `\xa0`,
`" "`, then `"."`, then map `","` to `"."`. -/
def transformC (g1 : List Char) : List Char :=
  mapCommaDot (stripCh '.' (stripCh ' ' (stripCh '\u00A0' (stripCh '\u202F' g1))))

/-- Python `float()` on a cleaned group-1 string, which by
construction consists only of digits and dots: it succeeds exactly on
`digits`, `digits.digits`, `digits.` and `.digits` shapes (`try` /
`except` maps failure to `None`). -/
def pyFloatDigitsDots (cs : List Char) : Option ℚ :=
  let ip := cs.takeWhile (fun c => c != '.')
  let rest := cs.dropWhile (fun c => c != '.')
  match rest with
  | [] => if ip ≠ [] ∧ ip.all Char.isDigit then some (natVal ip : ℚ) else none
  | '.' :: fr =>
    if (ip ≠ [] ∨ fr ≠ []) ∧ ip.all Char.isDigit ∧ fr.all Char.isDigit then
      some ((natVal ip : ℚ) + (natVal fr : ℚ) / 10 ^ fr.length)
    else none
  | _ => none

def cScan (raw : List Char) : Option ℚ :=
  (rawScan raw).bind (fun g1 => pyFloatDigitsDots (transformC g1))

/-- The whole HTML-parsing pipeline of source lines 232-299 (as the
docstring intends it, re-indented into the function): JSON-LD, then
visible-text selectors, then the raw scan — which the source
duplicates verbatim (lines 273-282 and 284-299), an idempotent second
attempt. -/
def htmlParse (h : Html) : Option ℚ :=
  let pA := ldPrice h.ldScripts
  let pB := pA <|> (pick_price_text h).bind normalizeB
  let pC := pB <|> cScan h.raw
  pC <|> cScan h.raw

/-! ### The price resolver `oxylabs_amazon_price` (source lines 145-304) -/

/-- Python exceptions this program can raise and observe.
`httpExc` is FastAPI's `HTTPException` (the only class `compare`
catches); `keyError` a dictionary `KeyError`; `typeError` a
`TypeError` (e.g. subscripting `None`). -/
inductive PyExc
  | httpExc (status : ℕ)
  | keyError
  | typeError
deriving DecidableEq

def PyExc.isHTTP : PyExc → Bool
  | .httpExc _ => true
  | _ => false

/-- Outcome of the structured-query upstream call: a `4xx/5xx` status
(line 167) or a usable response whose first result's `content` is
`cv`. -/
inductive StructResp
  | transportErr
  | ok (cv : ContentV)
deriving DecidableEq

/-- Outcome of the HTML-fetch upstream call (line 205): an error
status or markup. -/
inductive HtmlResp
  | transportErr
  | ok (h : Html)
deriving DecidableEq

/-- The upstream source's behaviour for one `(identifier, market)`
resolution: what each of the two possible requests would return. -/
structure UpEnv where
  structured : StructResp
  htmlFetch : HtmlResp
deriving DecidableEq

/-- `oxylabs_amazon_price` exactly as written (source lines 145-208):
credentials precondition, `COUNTRY_TO_DOMAIN`/`COUNTRY_TO_GEO`
lookups, the structured query, and — when the structured tier yields
no price — the HTML fetch, after which the function body *ends*
(the parsing block at lines 209-304 is dedented out of the function),
so the call implicitly returns `None`.  The second component counts
outbound upstream requests.  `creds` models `OXY_USER and OXY_PASS`
being set. -/
def oxylabs_amazon_price (creds : Bool) (_asin country : String)
    (env : UpEnv) : Except PyExc (Option ℚ) × ℕ :=
  if ¬ creds then (.error (.httpExc 500), 0)
  else
    match COUNTRY_TO_DOMAIN country, COUNTRY_TO_GEO country with
    | some _, some _ =>
      (match env.structured with
       | .transportErr => (.error (.httpExc 502), 1)
       | .ok cv =>
         match structuredPriceV cv with
         | some q => (.ok (some q), 1)
         | none =>
           match env.htmlFetch with
           | .transportErr => (.error (.httpExc 502), 2)
           | .ok _ => (.ok none, 2))
    | _, _ => (.error .keyError, 0)

/-- The same function with the HTML-parsing block re-indented into the
body, as the function's own docstring (lines 146-149) describes:
strategy A/B/C parsing of the fetched markup, `404 Price not found`
when everything fails, else `{"price": price, "currency": "EUR"}`. -/
def oxylabs_amazon_price_intended (creds : Bool) (_asin country : String)
    (env : UpEnv) : Except PyExc ℚ × ℕ :=
  if ¬ creds then (.error (.httpExc 500), 0)
  else
    match COUNTRY_TO_DOMAIN country, COUNTRY_TO_GEO country with
    | some _, some _ =>
      (match env.structured with
       | .transportErr => (.error (.httpExc 502), 1)
       | .ok cv =>
         match structuredPriceV cv with
         | some q => (.ok q, 1)
         | none =>
           match env.htmlFetch with
           | .transportErr => (.error (.httpExc 502), 2)
           | .ok h =>
             match htmlParse h with
             | some q => (.ok q, 2)
             | none => (.error (.httpExc 404), 2))
    | _, _ => (.error .keyError, 0)

/-! ### The comparison orchestrator `compare` (source lines 334-371)

The resolver is passed in as a per-market outcome function (design
note §9: inject the collaborator); `.error e` stands for the resolver
call raising `e`.  Persistence of `PriceObservation`s is a side effect
with no influence on the response and is not modelled. -/

structure CompareItem where
  country : String
  price : ℚ
  currency : String
  affiliate_link : String
deriving DecidableEq

structure CompareResponse where
  asin : String
  items : List CompareItem
deriving DecidableEq

/-- `compare`'s error outcomes: HTTP 400 (no identifier), HTTP 404
(no prices), or an uncaught exception escaping the endpoint
(anything that is not an `HTTPException`, e.g. a `KeyError` from
`affiliate_link`). -/
inductive CompareErr
  | badRequest
  | notFound
  | internal
deriving DecidableEq

/-- The market loop of lines 343-364: a resolver `HTTPException` is
caught and the market skipped (`except HTTPException: continue`); any
other exception — from the resolver or from `affiliate_link` — is
uncaught and aborts the whole request. -/
def collectItems (resolve : String → Except PyExc ℚ) (asin : String) :
    List String → Except CompareErr (List CompareItem)
  | [] => .ok []
  | c :: rest =>
    match resolve c with
    | .error e =>
      if e.isHTTP then collectItems resolve asin rest
      else .error .internal
    | .ok q =>
      match affiliate_link asin c with
      | none => .error .internal
      | some link =>
        (collectItems resolve asin rest).map
          (fun items => ⟨c, q, "EUR", link⟩ :: items)

/-- The ascending-by-price ordering used by `items.sort(key=lambda x:
x.price)`; Python's sort is stable, which `List.insertionSort` with
this relation reproduces. -/
def priceLE (x y : CompareItem) : Prop := x.price ≤ y.price

instance : DecidableRel priceLE := fun x y => inferInstanceAs (Decidable (x.price ≤ y.price))

instance : IsTotal CompareItem priceLE := ⟨fun x y => le_total x.price y.price⟩

instance : IsTrans CompareItem priceLE := ⟨fun _ _ _ h1 h2 => le_trans h1 h2⟩

/-- The `/compare` endpoint (source lines 334-371): extract the
identifier (400 if absent), collect per-market quotes, sort ascending
by price, 404 when no market succeeded. -/
def compare (countries : List String) (resolve : String → Except PyExc ℚ)
    (input : String) : Except CompareErr CompareResponse :=
  match extract_asin input with
  | none => .error .badRequest
  | some asin =>
    match collectItems resolve asin countries with
    | .error e => .error e
    | .ok items =>
      let sorted := List.insertionSort priceLE items
      if sorted = [] then .error .notFound
      else .ok ⟨asin, sorted⟩

/-! ### The alert evaluator `run_alerts` (source lines 398-429) -/

/-- One row of the `alerts` table. -/
structure AlertRow where
  asin : String
  country : String
  target_price : ℚ
  email : String
deriving DecidableEq

/-- One element of the returned `sent` list
(`{to, asin, country, price}`; the `to` key is named `toAddr` here
because `to` is reserved in Lean). -/
structure SentItem where
  toAddr : String
  asin : String
  country : String
  price : ℚ
deriving DecidableEq

/-- Result of a run: the `sent` list the endpoint returns, plus an
instrumentation log of every `send_email` invocation (the alert row
and the resolved price it was called for), needed to state that the
notifier is or is not invoked for an alert. -/
structure RunAlertsOut where
  sent : List SentItem
  notified : List (AlertRow × ℚ)
deriving DecidableEq

/-- `run_alerts` (source lines 398-429).  Per alert, inside
`try ... except Exception: continue`: resolve the price (any raised
exception skips the alert), compare with the target, build the
affiliate link (a `KeyError` here is also swallowed), invoke
`send_email` — whose failure, modelled by `sendOk a p = false`, is
*also* swallowed by the same handler, skipping only the `sent.append`.
The rendered subject and body are functions of the row and price; the
notifier outcome is abstracted as the predicate `sendOk` on those
inputs. -/
def run_alerts (resolve : String → String → Except PyExc ℚ)
    (sendOk : AlertRow → ℚ → Bool) : List AlertRow → RunAlertsOut
  | [] => ⟨[], []⟩
  | a :: rest =>
    let tail := run_alerts resolve sendOk rest
    match resolve a.asin a.country with
    | .error _ => tail
    | .ok p =>
      if p ≤ a.target_price then
        match COUNTRY_TO_DOMAIN a.country with
        | none => tail
        | some _ =>
          if sendOk a p then
            ⟨⟨a.email, a.asin, a.country, p⟩ :: tail.sent, (a, p) :: tail.notified⟩
          else
            ⟨tail.sent, (a, p) :: tail.notified⟩
      else tail

/-- The resolver exactly as `run_alerts` consumes it: a call to
`oxylabs_amazon_price` for the row's `(asin, country)` against the
upstream behaviour `envOf asin country`.  As written the function can
also *return* `None` (the dedented-parsing bug); the caller then
subscripts `None` (`p["price"]`), raising `TypeError` at the call
site, which this wrapper folds into the outcome. -/
def resolveViaOxylabs (creds : Bool) (envOf : String → String → UpEnv)
    (asin country : String) : Except PyExc ℚ :=
  match oxylabs_amazon_price creds asin country (envOf asin country) with
  | (.ok (some q), _) => .ok q
  | (.ok none, _) => .error .typeError
  | (.error e, _) => .error e

/-- The decimal value denoted by the euro-style rendering
`<int>,<frac>`: integer part plus fractional digits scaled by their
count. -/
def decimalVal (ds fs : List Char) : ℚ :=
  (natVal ds : ℚ) + (natVal fs : ℚ) / 10 ^ fs.length

deriving instance DecidableEq for Except

/-! ## Helper lemmas about the character pipeline -/

theorem digit_ne {c x : Char} (hx : x.isDigit = false) (hc : c.isDigit = true) :
    c ≠ x := by
  intro e
  rw [e, hx] at hc
  cases hc

theorem stripCh_of_all_ne {x : Char} {l : List Char} (h : ∀ c ∈ l, c ≠ x) :
    stripCh x l = l := by
  unfold stripCh
  exact List.filter_eq_self.mpr (fun c hc => by simpa using h c hc)

theorem removeEUR_of_no_E {l : List Char} (h : ∀ c ∈ l, c ≠ 'E') :
    removeEUR l = l := by
  induction l with
  | nil => rfl
  | cons c cs ih =>
    rcases cs with _ | ⟨c2, cs2⟩
    · rfl
    rcases cs2 with _ | ⟨c3, cs3⟩
    · rfl
    rw [removeEUR, if_neg (fun hand => h c (by simp) hand.1)]
    rw [ih (fun d hd => h d (by simp [hd]))]

theorem mapCommaDot_of_all_ne {l : List Char} (h : ∀ c ∈ l, c ≠ ',') :
    mapCommaDot l = l := by
  induction l with
  | nil => rfl
  | cons c cs ih =>
    rw [mapCommaDot, List.map_cons, if_neg (h c (by simp))]
    rw [show (List.map (fun d => if d = ',' then '.' else d) cs) = mapCommaDot cs from rfl]
    rw [ih (fun d hd => h d (by simp [hd]))]

theorem dropWhile_all_false {p : Char → Bool} : ∀ {l : List Char},
    (∀ c ∈ l, p c = false) → l.dropWhile p = l
  | [], _ => rfl
  | c :: _, h => by simp [List.dropWhile_cons, h c (by simp)]

theorem dropWhile_head_false {p : Char → Bool} {c : Char} (cs : List Char)
    (h : p c = false) : (c :: cs).dropWhile p = c :: cs := by
  simp [List.dropWhile_cons, h]

theorem pyStrip_no_ws {l : List Char} (h : ∀ c ∈ l, wsp c = false) :
    pyStrip l = l := by
  unfold pyStrip
  rw [dropWhile_all_false h,
    dropWhile_all_false (fun c hc => h c (List.mem_reverse.mp hc)),
    List.reverse_reverse]

theorem pyStrip_append_sp {l : List Char} (hne : l ≠ [])
    (h : ∀ c ∈ l, wsp c = false) : pyStrip (l ++ [' ']) = l := by
  unfold pyStrip
  have h1 : (l ++ [' ']).dropWhile wsp = l ++ [' '] := by
    rcases l with _ | ⟨c, cs⟩
    · exact absurd rfl hne
    · exact dropWhile_head_false _ (h c (by simp))
  rw [h1]
  have h2 : (l ++ [' ']).reverse = ' ' :: l.reverse := by simp
  rw [h2, List.dropWhile_cons]
  simp only [show wsp ' ' = true from by decide, if_true]
  rw [dropWhile_all_false (fun c hc => h c (List.mem_reverse.mp hc)),
    List.reverse_reverse]

theorem pyStrip_cons_sp {l : List Char} (h : ∀ c ∈ l, wsp c = false) :
    pyStrip (' ' :: l) = l := by
  unfold pyStrip
  rw [List.dropWhile_cons]
  simp only [show wsp ' ' = true from by decide, if_true]
  rw [dropWhile_all_false h,
    dropWhile_all_false (fun c hc => h c (List.mem_reverse.mp hc)),
    List.reverse_reverse]

theorem takeWhile_all_append {p : Char → Bool} {ds : List Char} {x : Char}
    (r : List Char) (hds : ∀ c ∈ ds, p c = true) (hx : p x = false) :
    (ds ++ x :: r).takeWhile p = ds := by
  induction ds with
  | nil => simp [List.takeWhile_cons, hx]
  | cons d ds ih =>
    rw [List.cons_append, List.takeWhile_cons, hds d (by simp), if_pos rfl]
    rw [ih (fun c hc => hds c (by simp [hc]))]

theorem dropWhile_all_append {p : Char → Bool} {ds : List Char} {x : Char}
    (r : List Char) (hds : ∀ c ∈ ds, p c = true) (hx : p x = false) :
    (ds ++ x :: r).dropWhile p = x :: r := by
  induction ds with
  | nil => simp [List.dropWhile_cons, hx]
  | cons d ds ih =>
    rw [List.cons_append, List.dropWhile_cons, hds d (by simp), if_pos rfl]
    exact ih (fun c hc => hds c (by simp [hc]))

/-- Membership case split for the characters of a `<int>,<frac> €`
rendering. -/
theorem case_ne4 {c x : Char} (hx : x.isDigit = false) (h1 : x ≠ ',')
    (h2 : x ≠ ' ') (h3 : x ≠ '€')
    (h : c.isDigit = true ∨ c = ',' ∨ c = ' ' ∨ c = '€') : c ≠ x := by
  rcases h with h | h | h | h
  · exact digit_ne hx h
  all_goals subst h
  · exact fun e => h1 e.symm
  · exact fun e => h2 e.symm
  · exact fun e => h3 e.symm

/-- Membership case split for the characters of an `EUR <int>,<frac>`
rendering. -/
theorem case_ne6 {c x : Char} (hx : x.isDigit = false) (h1 : x ≠ ',')
    (h2 : x ≠ ' ') (h3 : x ≠ 'E') (h4 : x ≠ 'U') (h5 : x ≠ 'R')
    (h : c.isDigit = true ∨ c = ',' ∨ c = ' ' ∨ c = 'E' ∨ c = 'U' ∨ c = 'R') :
    c ≠ x := by
  rcases h with h | h | h | h | h | h
  · exact digit_ne hx h
  all_goals subst h
  · exact fun e => h1 e.symm
  · exact fun e => h2 e.symm
  · exact fun e => h3 e.symm
  · exact fun e => h4 e.symm
  · exact fun e => h5 e.symm

theorem digit_not_wsp {c : Char} (h : c.isDigit = true) : wsp c = false := by
  have n1 : c ≠ ' ' := digit_ne (by decide) h
  have n2 : c ≠ '\t' := digit_ne (by decide) h
  have n3 : c ≠ '\n' := digit_ne (by decide) h
  have n4 : c ≠ '\r' := digit_ne (by decide) h
  have n5 : c ≠ '\x0b' := digit_ne (by decide) h
  have n6 : c ≠ '\x0c' := digit_ne (by decide) h
  have n7 : c ≠ ' ' := digit_ne (by decide) h
  have n8 : c ≠ ' ' := digit_ne (by decide) h
  simp [wsp, n1, n2, n3, n4, n5, n6, n7, n8]

/-- The replacement pipeline maps `<int>,<frac> €` to `<int>.<frac>`. -/
theorem normPipeline_euro {ds fs : List Char} (hds : ds ≠ [])
    (hdsd : ∀ c ∈ ds, c.isDigit = true) (hfsd : ∀ c ∈ fs, c.isDigit = true) :
    normPipeline (ds ++ ',' :: (fs ++ [' ', '€'])) = ds ++ '.' :: fs := by
  have hmem : ∀ c ∈ ds ++ ',' :: (fs ++ [' ', '€']),
      c.isDigit = true ∨ c = ',' ∨ c = ' ' ∨ c = '€' := by
    intro c hc
    rcases List.mem_append.mp hc with h | h
    · exact Or.inl (hdsd c h)
    · rcases List.mem_cons.mp h with h | h
      · exact Or.inr (Or.inl h)
      · rcases List.mem_append.mp h with h | h
        · exact Or.inl (hfsd c h)
        · rcases List.mem_cons.mp h with h | h
          · exact Or.inr (Or.inr (Or.inl h))
          · simp at h
            exact Or.inr (Or.inr (Or.inr h))
  unfold normPipeline
  rw [stripCh_of_all_ne (fun c hc =>
    case_ne4 (by decide) (by decide) (by decide) (by decide) (hmem c hc))]
  rw [stripCh_of_all_ne (fun c hc =>
    case_ne4 (by decide) (by decide) (by decide) (by decide) (hmem c hc))]
  have hd : List.filter (fun c => c != '€') ds = ds :=
    List.filter_eq_self.mpr (fun c hc => by
      simpa using digit_ne (by decide) (hdsd c hc))
  have hfs' : List.filter (fun c => c != '€') fs = fs :=
    List.filter_eq_self.mpr (fun c hc => by
      simpa using digit_ne (by decide) (hfsd c hc))
  have hstrip : stripCh '€' (ds ++ ',' :: (fs ++ [' ', '€'])) = ds ++ ',' :: (fs ++ [' ']) := by
    unfold stripCh
    rw [List.filter_append, List.filter_cons, if_pos (show ((',' != '€') = true) from by decide)]
    rw [List.filter_append, hd, hfs']
    rfl
  rw [hstrip]
  have hmem2 : ∀ c ∈ ds ++ ',' :: (fs ++ [' ']),
      c.isDigit = true ∨ c = ',' ∨ c = ' ' ∨ c = '€' := by
    intro c hc
    rcases List.mem_append.mp hc with h | h
    · exact Or.inl (hdsd c h)
    · rcases List.mem_cons.mp h with h | h
      · exact Or.inr (Or.inl h)
      · rcases List.mem_append.mp h with h | h
        · exact Or.inl (hfsd c h)
        · simp at h
          exact Or.inr (Or.inr (Or.inl h))
  rw [removeEUR_of_no_E (fun c hc =>
    case_ne4 (by decide) (by decide) (by decide) (by decide) (hmem2 c hc))]
  rw [stripCh_of_all_ne (fun c hc =>
    case_ne4 (by decide) (by decide) (by decide) (by decide) (hmem2 c hc))]
  have hds' : List.map (fun c => if c = ',' then '.' else c) ds = ds :=
    mapCommaDot_of_all_ne (fun c hc => digit_ne (by decide) (hdsd c hc))
  have hfs'' : List.map (fun c => if c = ',' then '.' else c) fs = fs :=
    mapCommaDot_of_all_ne (fun c hc => digit_ne (by decide) (hfsd c hc))
  have hmap : mapCommaDot (ds ++ ',' :: (fs ++ [' '])) = ds ++ '.' :: (fs ++ [' ']) := by
    unfold mapCommaDot
    rw [List.map_append, List.map_cons, if_pos rfl, List.map_append, hds', hfs'']
    rfl
  rw [hmap]
  have hnws : ∀ c ∈ ds ++ '.' :: fs, wsp c = false := by
    intro c hc
    rcases List.mem_append.mp hc with h | h
    · exact digit_not_wsp (hdsd c h)
    · rcases List.mem_cons.mp h with h | h
      · subst h; decide
      · exact digit_not_wsp (hfsd c h)
  have hne2 : ds ++ '.' :: fs ≠ [] := by
    rcases ds with _ | _
    · exact absurd rfl hds
    · simp
  have hfin := pyStrip_append_sp hne2 hnws
  have hassoc : ds ++ '.' :: (fs ++ [' ']) = (ds ++ '.' :: fs) ++ [' '] := by simp
  rw [hassoc, hfin]

/-- The replacement pipeline maps `EUR <int>,<frac>` to `<int>.<frac>`. -/
theorem normPipeline_eurPre {ds fs : List Char}
    (hdsd : ∀ c ∈ ds, c.isDigit = true) (hfsd : ∀ c ∈ fs, c.isDigit = true) :
    normPipeline ('E' :: 'U' :: 'R' :: ' ' :: (ds ++ ',' :: fs)) = ds ++ '.' :: fs := by
  have hmem : ∀ c ∈ 'E' :: 'U' :: 'R' :: ' ' :: (ds ++ ',' :: fs),
      c.isDigit = true ∨ c = ',' ∨ c = ' ' ∨ c = 'E' ∨ c = 'U' ∨ c = 'R' := by
    intro c hc
    rcases List.mem_cons.mp hc with h | hc
    · exact Or.inr (Or.inr (Or.inr (Or.inl h)))
    rcases List.mem_cons.mp hc with h | hc
    · exact Or.inr (Or.inr (Or.inr (Or.inr (Or.inl h))))
    rcases List.mem_cons.mp hc with h | hc
    · exact Or.inr (Or.inr (Or.inr (Or.inr (Or.inr h))))
    rcases List.mem_cons.mp hc with h | hc
    · exact Or.inr (Or.inr (Or.inl h))
    rcases List.mem_append.mp hc with h | h
    · exact Or.inl (hdsd c h)
    · rcases List.mem_cons.mp h with h | h
      · exact Or.inr (Or.inl h)
      · exact Or.inl (hfsd c h)
  unfold normPipeline
  rw [stripCh_of_all_ne (fun c hc =>
    case_ne6 (by decide) (by decide) (by decide) (by decide) (by decide) (by decide)
      (hmem c hc))]
  rw [stripCh_of_all_ne (fun c hc =>
    case_ne6 (by decide) (by decide) (by decide) (by decide) (by decide) (by decide)
      (hmem c hc))]
  rw [stripCh_of_all_ne (fun c hc =>
    case_ne6 (by decide) (by decide) (by decide) (by decide) (by decide) (by decide)
      (hmem c hc))]
  have hmemRest : ∀ c ∈ ' ' :: (ds ++ ',' :: fs), c ≠ 'E' := by
    intro c hc
    rcases List.mem_cons.mp hc with h | hc
    · subst h; decide
    rcases List.mem_append.mp hc with h | h
    · exact digit_ne (by decide) (hdsd c h)
    · rcases List.mem_cons.mp h with h | h
      · subst h; decide
      · exact digit_ne (by decide) (hfsd c h)
  have hEUR : removeEUR ('E' :: 'U' :: 'R' :: ' ' :: (ds ++ ',' :: fs))
      = ' ' :: (ds ++ ',' :: fs) := by
    rw [removeEUR, if_pos ⟨rfl, rfl, rfl⟩]
    exact removeEUR_of_no_E hmemRest
  rw [hEUR]
  have hdot : ∀ c ∈ ' ' :: (ds ++ ',' :: fs), c ≠ '.' := by
    intro c hc
    rcases List.mem_cons.mp hc with h | hc
    · subst h; decide
    rcases List.mem_append.mp hc with h | h
    · exact digit_ne (by decide) (hdsd c h)
    · rcases List.mem_cons.mp h with h | h
      · subst h; decide
      · exact digit_ne (by decide) (hfsd c h)
  rw [stripCh_of_all_ne hdot]
  have hds' : List.map (fun c => if c = ',' then '.' else c) ds = ds :=
    mapCommaDot_of_all_ne (fun c hc => digit_ne (by decide) (hdsd c hc))
  have hfs'' : List.map (fun c => if c = ',' then '.' else c) fs = fs :=
    mapCommaDot_of_all_ne (fun c hc => digit_ne (by decide) (hfsd c hc))
  have hmap : mapCommaDot (' ' :: (ds ++ ',' :: fs)) = ' ' :: (ds ++ '.' :: fs) := by
    unfold mapCommaDot
    rw [List.map_cons, if_neg (by decide), List.map_append, List.map_cons,
      if_pos rfl, hds', hfs'']
  rw [hmap]
  have hnws : ∀ c ∈ ds ++ '.' :: fs, wsp c = false := by
    intro c hc
    rcases List.mem_append.mp hc with h | h
    · exact digit_not_wsp (hdsd c h)
    · rcases List.mem_cons.mp h with h | h
      · subst h; decide
      · exact digit_not_wsp (hfsd c h)
  exact pyStrip_cons_sp hnws

/-- A digit string followed by a dot and one or two fractional digits is
matched whole by the regex and parsed to its exact decimal value. -/
theorem token_decimal {ds fs : List Char} (hds : ds ≠ [])
    (hdsd : ∀ c ∈ ds, c.isDigit = true) (hfs : fs ≠ []) (hfs2 : fs.length ≤ 2)
    (hfsd : ∀ c ∈ fs, c.isDigit = true) :
    (firstNumToken (ds ++ '.' :: fs)).bind parseDec = some (decimalVal ds fs) := by
  have htake : (ds ++ '.' :: fs).takeWhile Char.isDigit = ds :=
    takeWhile_all_append _ hdsd (by decide)
  have hdrop : (ds ++ '.' :: fs).dropWhile Char.isDigit = '.' :: fs :=
    dropWhile_all_append _ hdsd (by decide)
  obtain ⟨d, ds', rfl⟩ : ∃ d ds', ds = d :: ds' := by
    rcases ds with _ | ⟨d, ds'⟩
    · exact absurd rfl hds
    · exact ⟨d, ds', rfl⟩
  have hd : d.isDigit = true := hdsd d (by simp)
  have h1 : firstNumToken ((d :: ds') ++ '.' :: fs)
      = some (matchNum ((d :: ds') ++ '.' :: fs)) := by
    rw [List.cons_append, firstNumToken, ← List.cons_append, hd]
    simp
  have h2 : matchNum ((d :: ds') ++ '.' :: fs) = (d :: ds') ++ '.' :: fs := by
    rw [matchNum]
    simp only [htake, hdrop]
    rw [List.takeWhile_eq_self_iff.mpr hfsd]
    rw [if_neg hfs, List.take_of_length_le hfs2]
  have h3 : parseDec ((d :: ds') ++ '.' :: fs) = some (decimalVal (d :: ds') fs) := by
    rw [parseDec]
    simp only [htake, hdrop]
    rw [if_neg (by simp)]
    rw [if_pos ⟨hfs, List.all_eq_true.mpr hfsd⟩]
    rfl
  rw [h1, Option.some_bind, h2, h3]

/-- C3: for every decimal amount with up to 2 fractional digits — given by
its integer-part digit string `ds` and its fractional digit string `fs`
(one or two digits), denoting the value `natVal ds + natVal fs / 10 ^ |fs|` —
normalizing the euro-style rendering `"<int>,<frac> €"` or
`"EUR <int>,<frac>"` with the structured-tier Price Normalizer recovers
exactly that decimal value. -/
theorem claim_C3 (ds fs : List Char) (hds : ds ≠ [])
    (hdsd : ∀ c ∈ ds, c.isDigit = true) (hfs : fs ≠ []) (hfs2 : fs.length ≤ 2)
    (hfsd : ∀ c ∈ fs, c.isDigit = true) :
    normalizeStr (ds ++ ',' :: (fs ++ [' ', '€'])) = some (decimalVal ds fs) ∧
    normalizeStr ('E' :: 'U' :: 'R' :: ' ' :: (ds ++ ',' :: fs)) = some (decimalVal ds fs) := by
  constructor
  · rw [normalizeStr, normPipeline_euro hds hdsd hfsd]
    exact token_decimal hds hdsd hfs hfs2 hfsd
  · rw [normalizeStr, normPipeline_eurPre hdsd hfsd]
    exact token_decimal hds hdsd hfs hfs2 hfsd

/-- C3 witness: the amount 49.99 rendered as `"49,99 €"` and as
`"EUR 49,99"` normalizes back to exactly 49.99. -/
theorem claim_C3_witness :
    normalizeStr "49,99 €".data = some (4999 / 100) ∧
    normalizeStr "EUR 49,99".data = some (4999 / 100) := by
  have h := claim_C3 ['4', '9'] ['9', '9'] (by decide)
    (by decide) (by decide) (by decide) (by decide)
  have hv : decimalVal ['4', '9'] ['9', '9'] = 4999 / 100 := by
    have e1 : natVal ['4', '9'] = 49 := by decide
    have e2 : natVal ['9', '9'] = 99 := by decide
    rw [decimalVal, e1, e2]
    norm_num
  constructor
  · have e1 : "49,99 €".data = ['4', '9'] ++ ',' :: (['9', '9'] ++ [' ', '€']) := by decide
    rw [e1, h.1, hv]
  · have e2 : "EUR 49,99".data = 'E' :: 'U' :: 'R' :: ' ' :: (['4', '9'] ++ ',' :: ['9', '9']) := by
      decide
    rw [e2, h.2, hv]

/-! ## Claim C4: normalizer output invariant -/

theorem firstNumToken_shape : ∀ {cs tok : List Char},
    firstNumToken cs = some tok →
    ∃ c cs2, tok = matchNum (c :: cs2) ∧ c.isDigit = true
  | [], _, h => by cases h
  | c :: cs, tok, h => by
    rw [firstNumToken] at h
    by_cases hc : c.isDigit = true
    · rw [hc, if_pos rfl] at h
      exact ⟨c, cs, (Option.some_inj.mp h).symm, hc⟩
    · rw [eq_false_of_ne_true hc] at h
      simp only [Bool.false_eq_true, if_false] at h
      exact firstNumToken_shape h

theorem parseDec_digits {ds : List Char} (hne : ds ≠ [])
    (hall : ∀ x ∈ ds, x.isDigit = true) : parseDec ds = some (natVal ds : ℚ) := by
  rw [parseDec]
  simp only [List.takeWhile_eq_self_iff.mpr hall, List.dropWhile_eq_nil_iff.mpr hall]
  rw [if_neg hne]

theorem parseDec_digits_dot {ds fr : List Char} (hne : ds ≠ [])
    (hall : ∀ x ∈ ds, x.isDigit = true) (hfne : fr ≠ [])
    (hfall : ∀ x ∈ fr, x.isDigit = true) :
    parseDec (ds ++ '.' :: fr)
      = some ((natVal ds : ℚ) + (natVal fr : ℚ) / 10 ^ fr.length) := by
  have htake : (ds ++ '.' :: fr).takeWhile Char.isDigit = ds :=
    takeWhile_all_append _ hall (by decide)
  have hdrop : (ds ++ '.' :: fr).dropWhile Char.isDigit = '.' :: fr :=
    dropWhile_all_append _ hall (by decide)
  rw [parseDec]
  simp only [htake, hdrop]
  rw [if_neg hne, if_pos ⟨hfne, List.all_eq_true.mpr hfall⟩]

/-- Shape of a maximal regex match: either the digit run alone, or the
digit run followed by a dot and the first two following digits. -/
theorem matchNum_cases (c : Char) (cs : List Char) :
    matchNum (c :: cs) = (c :: cs).takeWhile Char.isDigit ∨
    ∃ r2, (c :: cs).dropWhile Char.isDigit = '.' :: r2 ∧
      r2.takeWhile Char.isDigit ≠ [] ∧
      matchNum (c :: cs) = (c :: cs).takeWhile Char.isDigit
        ++ '.' :: (r2.takeWhile Char.isDigit).take 2 := by
  rw [matchNum]
  split
  · rename_i r2 heq
    by_cases hfs : r2.takeWhile Char.isDigit = []
    · rw [if_pos hfs]
      exact Or.inl rfl
    · rw [if_neg hfs]
      exact Or.inr ⟨r2, heq, hfs, rfl⟩
  · exact Or.inl rfl

theorem nat_div100 (n : ℕ) : (n : ℚ) = ((100 * n : ℕ) : ℚ) / 100 := by
  push_cast
  exact (mul_div_cancel_left₀ _ (by norm_num)).symm

theorem natfrac_div100_1 (n f : ℕ) :
    (n : ℚ) + (f : ℚ) / 10 ^ (1 : ℕ) = ((100 * n + f * 10 : ℕ) : ℚ) / 100 := by
  push_cast
  field_simp
  ring

theorem natfrac_div100_2 (n f : ℕ) :
    (n : ℚ) + (f : ℚ) / 10 ^ (2 : ℕ) = ((100 * n + f : ℕ) : ℚ) / 100 := by
  push_cast
  field_simp
  ring

/-- Values parsed from a maximal regex match are non-negative multiples
of 1/100. -/
theorem parse_matchNum {c : Char} {cs : List Char} (hc : c.isDigit = true)
    {q : ℚ} (h : parseDec (matchNum (c :: cs)) = some q) :
    0 ≤ q ∧ ∃ m : ℕ, q = m / 100 := by
  have hne : (c :: cs).takeWhile Char.isDigit ≠ [] := by
    rw [List.takeWhile_cons, hc]
    simp
  have hall : ∀ x ∈ (c :: cs).takeWhile Char.isDigit, x.isDigit = true :=
    fun x hx => List.mem_takeWhile_imp hx
  rcases matchNum_cases c cs with hm | ⟨r2, _, hfs, hm⟩
  · rw [hm, parseDec_digits hne hall] at h
    have hq : q = (natVal ((c :: cs).takeWhile Char.isDigit) : ℚ) :=
      (Option.some_inj.mp h).symm
    subst hq
    exact ⟨by positivity, ⟨100 * natVal ((c :: cs).takeWhile Char.isDigit), nat_div100 _⟩⟩
  · have hfr_ne : (r2.takeWhile Char.isDigit).take 2 ≠ [] := by
      rcases he : r2.takeWhile Char.isDigit with _ | ⟨a, b⟩
      · exact absurd he hfs
      · simp
    have hfr_all : ∀ x ∈ (r2.takeWhile Char.isDigit).take 2, x.isDigit = true :=
      fun x hx => List.mem_takeWhile_imp (List.take_subset 2 _ hx)
    rw [hm, parseDec_digits_dot hne hall hfr_ne hfr_all] at h
    have hq : q = (natVal ((c :: cs).takeWhile Char.isDigit) : ℚ)
        + (natVal ((r2.takeWhile Char.isDigit).take 2) : ℚ)
          / 10 ^ ((r2.takeWhile Char.isDigit).take 2).length :=
      (Option.some_inj.mp h).symm
    subst hq
    refine ⟨by positivity, ?_⟩
    have hlen : ((r2.takeWhile Char.isDigit).take 2).length = 1 ∨
        ((r2.takeWhile Char.isDigit).take 2).length = 2 := by
      have h1 : 0 < ((r2.takeWhile Char.isDigit).take 2).length :=
        List.length_pos.mpr hfr_ne
      have h2 : ((r2.takeWhile Char.isDigit).take 2).length ≤ 2 := by
        rw [List.length_take]
        omega
      omega
    rcases hlen with hl | hl
    · rw [hl]
      exact ⟨100 * natVal ((c :: cs).takeWhile Char.isDigit)
        + natVal ((r2.takeWhile Char.isDigit).take 2) * 10, natfrac_div100_1 _ _⟩
    · rw [hl]
      exact ⟨100 * natVal ((c :: cs).takeWhile Char.isDigit)
        + natVal ((r2.takeWhile Char.isDigit).take 2), natfrac_div100_2 _ _⟩

/-- C4 counterexample: the claim "every value the Price Normalizer
produces has at most 2 fractional digits and is non-negative, in
particular on the numeric-passthrough path" is false.  A structured
response whose `price` field is the number 49.999 is passed through
`float(price)` unchecked (line 196), and 49.999 is not a multiple of
1/100 (three fractional digits). -/
theorem claim_C4_counterexample :
    structuredPrice ⟨none, some (.pnum (49999 / 1000)), none⟩ = some (49999 / 1000) ∧
    ¬ ∃ m : ℕ, (49999 / 1000 : ℚ) = m / 100 := by
  constructor
  · rfl
  · rintro ⟨m, hm⟩
    rw [div_eq_div_iff (by norm_num) (by norm_num)] at hm
    have hm' : (4999900 : ℚ) = (m * 1000 : ℕ) := by push_cast; linarith
    have hm'' : (4999900 : ℕ) = m * 1000 := by exact_mod_cast hm'
    omega

/-- C4 (amended): on the textual-normalization path the invariant does
hold — whenever `normalizeStr` produces a value, that value is
non-negative and has at most 2 fractional digits (it is `m / 100` for
some natural `m`).  The numeric-passthrough path of line 196 returns
the upstream value unchanged and carries no such guarantee (see the
counterexample). -/
theorem claim_C4_amended (s : List Char) (q : ℚ)
    (h : normalizeStr s = some q) : 0 ≤ q ∧ ∃ m : ℕ, q = m / 100 := by
  rw [normalizeStr] at h
  rcases Option.bind_eq_some.mp h with ⟨tok, htok, hparse⟩
  obtain ⟨c, cs2, rfl, hc⟩ := firstNumToken_shape htok
  exact parse_matchNum hc hparse

/-- C4 amended-claim witness: normalizing the text `"49,99 €"` yields
49.99, which is non-negative and a multiple of 1/100. -/
theorem claim_C4_amended_witness :
    normalizeStr "49,99 €".data = some (4999 / 100) ∧
    0 ≤ (4999 / 100 : ℚ) ∧ ∃ m : ℕ, (4999 / 100 : ℚ) = m / 100 := by
  have e1 : "49,99 €".data = ['4', '9'] ++ ',' :: (['9', '9'] ++ [' ', '€']) := by decide
  have ht : (firstNumToken (['4', '9'] ++ '.' :: ['9', '9'])).bind parseDec
      = some (decimalVal ['4', '9'] ['9', '9']) :=
    token_decimal (by decide) (by decide) (by decide) (by decide) (by decide)
  have hv : decimalVal ['4', '9'] ['9', '9'] = 4999 / 100 := by
    have e2 : natVal ['4', '9'] = 49 := by decide
    have e3 : natVal ['9', '9'] = 99 := by decide
    rw [decimalVal, e2, e3]
    norm_num
  have hn : normalizeStr "49,99 €".data = some (4999 / 100) := by
    rw [e1, normalizeStr, normPipeline_euro (by decide) (by decide) (by decide), ht, hv]
  exact ⟨hn, claim_C4_amended _ _ hn⟩

/-! ## Claim C2: structured success issues exactly one upstream call -/

theorem geo_isSome_of_domain {c : String}
    (h : (COUNTRY_TO_DOMAIN c).isSome = true) :
    (COUNTRY_TO_GEO c).isSome = true := by
  rw [COUNTRY_TO_DOMAIN] at h
  rw [COUNTRY_TO_GEO]
  split_ifs at h ⊢ <;> simp_all

/-- C2: for every (identifier, market) pair whose market is configured,
if the structured-query response is received and yields a usable
numeric price `q` (directly numeric or normalized from text — i.e.
`structuredPriceV` succeeds), the resolver returns exactly that price
and the upstream request counter is 1: the HTML-fetch request is never
issued. -/
theorem claim_C2 (asin country : String) (env : UpEnv) (cv : ContentV) (q : ℚ)
    (h1 : env.structured = .ok cv) (h2 : structuredPriceV cv = some q)
    (h3 : (COUNTRY_TO_DOMAIN country).isSome = true) :
    oxylabs_amazon_price true asin country env = (.ok (some q), 1) := by
  obtain ⟨d, hd⟩ := Option.isSome_iff_exists.mp h3
  obtain ⟨g, hg⟩ := Option.isSome_iff_exists.mp (geo_isSome_of_domain h3)
  rw [oxylabs_amazon_price, if_neg (by simp)]
  simp only [hd, hg, h1, h2]

/-- C2 witness: a structured response whose `price` field is the number
49.99 resolves to 49.99 with a single upstream call. -/
theorem claim_C2_witness :
    oxylabs_amazon_price true "B0C1234ABC" "FR"
      ⟨.ok (.dict ⟨none, some (.pnum (4999 / 100)), none⟩),
       .ok ⟨[], none, none, none, none, none, none, none, []⟩⟩
      = (.ok (some (4999 / 100)), 1) :=
  claim_C2 "B0C1234ABC" "FR" _ (.dict ⟨none, some (.pnum (4999 / 100)), none⟩)
    (4999 / 100) rfl rfl (by decide)

/-! ## Claim C1: HTML fallback with a legacy price-block id -/

/-- The markup of the C1 scenario: no JSON-LD scripts, no modern price
selectors, only `#priceblock_ourprice` with text `49,99 €`. -/
def htmlC1 : Html :=
  ⟨[], none, none, none, some "49,99 €".data, none, none, none,
   "<div id=priceblock_ourprice>49,99 €</div>".data⟩

/-- The upstream behaviour of the C1 scenario: the structured query
succeeds but its content has no price field at all; the HTML fetch
returns `htmlC1`. -/
def envC1 : UpEnv := ⟨.ok (.dict ⟨none, none, none⟩), .ok htmlC1⟩

/-- C1 (code bug): on a structured response without a usable price and
markup whose only price occurrence is the legacy `#priceblock_ourprice`
element `"49,99 €"`, the claim says the resolver returns the normalized
49.99.  As written it does not: the parsing block of lines 209-304 is
dedented out of the function, so after issuing both upstream calls the
function implicitly returns `None` (first conjunct) — the module does
not even compile, with `return` outside a function at line 304.
Re-indenting the block as the docstring intends yields exactly the
claimed behaviour (second conjunct). -/
theorem claim_C1 :
    oxylabs_amazon_price true "B0C1234ABC" "FR" envC1 = (.ok none, 2) ∧
    oxylabs_amazon_price_intended true "B0C1234ABC" "FR" envC1
      = (.ok (4999 / 100), 2) := by
  constructor
  · rfl
  · have htok : firstNumToken (mapCommaDot (stripCh '.'
        (removeEUR (stripCh '€' (stripCh ' ' (stripCh ' ' "49,99 €".data))))))
        = some (['4', '9'] ++ '.' :: ['9', '9']) := by decide
    have hpd : parseDec (['4', '9'] ++ '.' :: ['9', '9'])
        = some ((natVal ['4', '9'] : ℚ) + (natVal ['9', '9'] : ℚ) / 10 ^ (['9', '9'] : List Char).length) :=
      parseDec_digits_dot (by decide) (by decide) (by decide) (by decide)
    have hB : normalizeB "49,99 €".data = some (4999 / 100) := by
      rw [normalizeB, htok, Option.some_bind, hpd]
      have e2 : natVal ['4', '9'] = 49 := by decide
      have e3 : natVal ['9', '9'] = 99 := by decide
      rw [e2, e3]
      norm_num
    have hhtml : htmlParse htmlC1 = some (4999 / 100) := by
      have h0 : htmlParse htmlC1
          = ((((none : Option ℚ) <|> (some "49,99 €".data).bind normalizeB)
              <|> cScan htmlC1.raw) <|> cScan htmlC1.raw) := rfl
      rw [h0, Option.none_orElse, Option.some_bind, hB, Option.some_orElse,
        Option.some_orElse]
    have hrfl : oxylabs_amazon_price_intended true "B0C1234ABC" "FR" envC1
        = (match htmlParse htmlC1 with
           | some q => (Except.ok q, 2)
           | none => (Except.error (PyExc.httpExc 404), 2)) := rfl
    rw [hrfl, hhtml]

/-! ## Claim C5: the identifier extractor's contract

`SegMatch` and `AsinSpec` are the spec side of this refinement claim,
written from the claim's words ("the trimmed text is itself a valid
identifier, or a valid identifier appears after a `/dp/` or
`/gp/product/` URL path segment"); the implementation side is
`extract_asin`, translated from the source. -/

/-- A recognized URL segment immediately followed by a valid
10-character identifier starts this suffix of the text. -/
def SegMatch (s : List Char) : Prop :=
  ∃ a r, (s = ['/', 'd', 'p', '/'] ++ (a ++ r) ∨
          s = ['/', 'g', 'p', '/', 'p', 'r', 'o', 'd', 'u', 'c', 't', '/'] ++ (a ++ r)) ∧
    a.length = 10 ∧ ∀ c ∈ a, isAsinChar c = true

/-- The claim's contract over the trimmed text: the text is itself a
valid identifier, or a valid identifier appears right after a
recognized URL path segment somewhere in it. -/
def AsinSpec (t : List Char) : Prop :=
  (t.length = 10 ∧ ∀ c ∈ t, isAsinChar c = true) ∨ ∃ s, s <:+ t ∧ SegMatch s

theorem dropPfx_eq_some_iff : ∀ {p cs r : List Char},
    dropPfx p cs = some r ↔ cs = p ++ r
  | [], cs, r => by simp [dropPfx]
  | _ :: _, [], _ => by simp [dropPfx]
  | p :: ps, c :: cs, r => by
    rw [dropPfx]
    by_cases h : p = c
    · subst h
      rw [if_pos rfl, dropPfx_eq_some_iff]
      constructor
      · intro h2
        rw [h2]
        rfl
      · intro h2
        exact (List.cons_inj_right p).mp h2
    · rw [if_neg h]
      constructor
      · intro hh
        cases hh
      · intro h2
        have : p = c := (List.cons_eq_cons.mp h2.symm).1
        exact absurd this h

theorem take10A_some_shape {r a : List Char} (h : take10A r = some a) :
    a.length = 10 ∧ (∀ c ∈ a, isAsinChar c = true) ∧ ∃ rest, r = a ++ rest := by
  rw [take10A] at h
  split_ifs at h with hcond
  · have ha : a = r.take 10 := (Option.some_inj.mp h).symm
    subst ha
    exact ⟨hcond.1, fun c hc => List.all_eq_true.mp hcond.2 c hc,
      ⟨r.drop 10, (List.take_append_drop 10 r).symm⟩⟩

theorem take10A_isSome_of {a : List Char} (rest : List Char)
    (hlen : a.length = 10) (hall : ∀ c ∈ a, isAsinChar c = true) :
    (take10A (a ++ rest)).isSome = true := by
  rw [take10A]
  have htake : (a ++ rest).take 10 = a := by
    rw [← hlen]
    exact List.take_left a rest
  rw [if_pos ⟨by rw [htake, hlen], by rw [htake]; exact List.all_eq_true.mpr hall⟩]
  rfl

theorem b1At_some_shape {cs a : List Char} (h : b1At cs = some a) :
    (a.length = 10 ∧ ∀ c ∈ a, isAsinChar c = true) ∧ SegMatch cs := by
  rw [b1At] at h
  rcases hdp : dropPfx ['/', 'd', 'p', '/'] cs with _ | r1
  · rw [hdp] at h
    rcases hgp : dropPfx ['/', 'g', 'p', '/', 'p', 'r', 'o', 'd', 'u', 'c', 't', '/'] cs with _ | r2
    · rw [hgp] at h
      cases h
    · rw [hgp] at h
      obtain ⟨hlen, hall, rest, hr⟩ := take10A_some_shape h
      refine ⟨⟨hlen, hall⟩, ⟨a, rest, Or.inr ?_, hlen, hall⟩⟩
      rw [← hr]
      exact dropPfx_eq_some_iff.mp hgp
  · rw [hdp] at h
    obtain ⟨hlen, hall, rest, hr⟩ := take10A_some_shape h
    refine ⟨⟨hlen, hall⟩, ⟨a, rest, Or.inl ?_, hlen, hall⟩⟩
    rw [← hr]
    exact dropPfx_eq_some_iff.mp hdp

theorem b1At_isSome_of_seg {cs : List Char} (h : SegMatch cs) :
    (b1At cs).isSome = true := by
  obtain ⟨a, r, hcs | hcs, hlen, hall⟩ := h
  · subst hcs
    rw [b1At, show dropPfx ['/', 'd', 'p', '/'] (['/', 'd', 'p', '/'] ++ (a ++ r))
        = some (a ++ r) from dropPfx_eq_some_iff.mpr rfl]
    exact take10A_isSome_of r hlen hall
  · subst hcs
    rw [b1At, show dropPfx ['/', 'd', 'p', '/']
        (['/', 'g', 'p', '/', 'p', 'r', 'o', 'd', 'u', 'c', 't', '/'] ++ (a ++ r))
        = none from rfl,
      show dropPfx ['/', 'g', 'p', '/', 'p', 'r', 'o', 'd', 'u', 'c', 't', '/']
        (['/', 'g', 'p', '/', 'p', 'r', 'o', 'd', 'u', 'c', 't', '/'] ++ (a ++ r))
        = some (a ++ r) from dropPfx_eq_some_iff.mpr rfl]
    exact take10A_isSome_of r hlen hall

theorem segMatch_nil_false : ¬ SegMatch [] := by
  rintro ⟨a, r, h | h, _, _⟩ <;> cases h

theorem searchA_isSome_iff : ∀ (cs : List Char) (b : Bool),
    (searchA cs b).isSome = true ↔
      (∃ s, s <:+ cs ∧ SegMatch s) ∨ (b = true ∧ isFullAsin cs = true)
  | [], b => by
    rw [searchA, if_neg (by simp [isFullAsin])]
    simp only [Option.isSome_none, Bool.false_eq_true, false_iff]
    rintro (⟨s, hs, hseg⟩ | ⟨_, hfull⟩)
    · rw [List.suffix_nil.mp hs] at hseg
      exact segMatch_nil_false hseg
    · simp [isFullAsin] at hfull
  | c :: rest, b => by
    rw [searchA]
    rcases hb : b1At (c :: rest) with _ | r
    · have hnoseg : ¬ SegMatch (c :: rest) := fun hseg => by
        have hsome := b1At_isSome_of_seg hseg
        rw [hb] at hsome
        cases hsome
      by_cases hf : b = true ∧ isFullAsin (c :: rest) = true
      · rw [if_pos hf]
        simp only [Option.isSome_some, true_iff]
        exact Or.inr hf
      · rw [if_neg hf]
        rw [searchA_isSome_iff rest false]
        constructor
        · rintro (⟨s, hs, hseg⟩ | ⟨hfalse, _⟩)
          · exact Or.inl ⟨s, hs.trans (List.suffix_cons c rest), hseg⟩
          · cases hfalse
        · rintro (⟨s, hs, hseg⟩ | hff)
          · rcases List.suffix_cons_iff.mp hs with rfl | hs'
            · exact absurd hseg hnoseg
            · exact Or.inl ⟨s, hs', hseg⟩
          · exact absurd hff hf
    · simp only [Option.isSome_some, true_iff]
      exact Or.inl ⟨c :: rest, List.suffix_refl _, (b1At_some_shape hb).2⟩

theorem searchA_some_shape : ∀ {cs : List Char} {b : Bool} {l : List Char},
    searchA cs b = some l → l.length = 10 ∧ ∀ c ∈ l, isAsinChar c = true
  | [], b, l => by
    rw [searchA, if_neg (by simp [isFullAsin])]
    intro h
    cases h
  | c :: rest, b, l => by
    rw [searchA]
    rcases hb : b1At (c :: rest) with _ | r
    · by_cases hf : b = true ∧ isFullAsin (c :: rest) = true
      · rw [if_pos hf]
        intro h
        have hl : l = c :: rest := (Option.some_inj.mp h).symm
        subst hl
        have := hf.2
        rw [isFullAsin, Bool.and_eq_true] at this
        exact ⟨by simpa using this.1, fun x hx => List.all_eq_true.mp this.2 x hx⟩
      · rw [if_neg hf]
        exact searchA_some_shape
    · intro h
      have hl : l = r := (Option.some_inj.mp h).symm
      subst hl
      exact (b1At_some_shape hb).1

/-- C5: the Identifier Extractor returns an identifier exactly when the
trimmed text is itself a valid 10-character uppercase-alphanumeric
identifier or such an identifier appears right after a `/dp/` or
`/gp/product/` URL path segment; whatever it returns is a valid
10-character identifier.  The embedding is a total function, matching
the contract's "never raises". -/
theorem claim_C5 (s : String) :
    ((extract_asin s).isSome = true ↔ AsinSpec (pyStrip s.data)) ∧
    (∀ a : String, extract_asin s = some a →
      a.length = 10 ∧ ∀ c ∈ a.data, isAsinChar c = true) := by
  constructor
  · rw [extract_asin]
    have hmap : (Option.map (fun l => String.mk l) (searchA (pyStrip s.data) true)).isSome
        = (searchA (pyStrip s.data) true).isSome := by
      cases searchA (pyStrip s.data) true <;> rfl
    rw [hmap, searchA_isSome_iff (pyStrip s.data) true]
    rw [AsinSpec]
    constructor
    · rintro (hseg | ⟨_, hfull⟩)
      · exact Or.inr hseg
      · rw [isFullAsin, Bool.and_eq_true] at hfull
        exact Or.inl ⟨by simpa using hfull.1, fun x hx => List.all_eq_true.mp hfull.2 x hx⟩
    · rintro (⟨hlen, hall⟩ | hseg)
      · exact Or.inr ⟨rfl, by
          rw [isFullAsin, Bool.and_eq_true]
          exact ⟨by simpa using hlen, List.all_eq_true.mpr hall⟩⟩
      · exact Or.inl hseg
  · intro a ha
    rw [extract_asin] at ha
    rcases hsr : searchA (pyStrip s.data) true with _ | l
    · rw [hsr] at ha
      cases ha
    · rw [hsr] at ha
      have hal : a = String.mk l := (Option.some_inj.mp ha).symm
      subst hal
      exact searchA_some_shape hsr

/-- C5 witness: a product URL containing `/dp/B0C1234ABC` satisfies the
spec-side predicate and the extractor returns exactly that
identifier. -/
theorem claim_C5_witness :
    extract_asin "https://www.amazon.fr/dp/B0C1234ABC?th=1" = some "B0C1234ABC" ∧
    AsinSpec (pyStrip "https://www.amazon.fr/dp/B0C1234ABC?th=1".data) ∧
    "B0C1234ABC".length = 10 := by
  have he : extract_asin "https://www.amazon.fr/dp/B0C1234ABC?th=1" = some "B0C1234ABC" := by
    decide
  refine ⟨he, ?_, ?_⟩
  · exact (claim_C5 "https://www.amazon.fr/dp/B0C1234ABC?th=1").1.mp (by rw [he]; rfl)
  · exact ((claim_C5 "https://www.amazon.fr/dp/B0C1234ABC?th=1").2 "B0C1234ABC" he).1

/-! ## Claim C6: comparison results are sorted with stable ties -/

/-- Equal-amount items of a result keep the relative order in which
their markets appear in the configured market list (for every amount,
the markets of the items at that amount form a sublist of the
configured list). -/
def TiesInMarketOrder (countries : List String) (items : List CompareItem) : Prop :=
  ∀ q : ℚ, List.Sublist
    ((items.filter (fun y => y.price == q)).map CompareItem.country) countries

theorem filter_orderedInsert_pos {x : CompareItem} {q : ℚ} (hx : x.price = q) :
    ∀ l : List CompareItem,
      (List.orderedInsert priceLE x l).filter (fun y => y.price == q)
        = x :: l.filter (fun y => y.price == q)
  | [] => by
    rw [List.orderedInsert_nil, List.filter_cons_of_pos (by simp [hx])]
  | b :: l => by
    rw [List.orderedInsert]
    by_cases hle : priceLE x b
    · rw [if_pos hle, List.filter_cons_of_pos (by simp [hx])]
    · rw [if_neg hle]
      have hb : b.price ≠ q := by
        rw [priceLE] at hle
        have : b.price < x.price := lt_of_not_le hle
        rw [hx] at this
        exact ne_of_lt this
      rw [List.filter_cons_of_neg (by simpa using hb),
        List.filter_cons_of_neg (by simpa using hb)]
      exact filter_orderedInsert_pos hx l

theorem filter_orderedInsert_neg {x : CompareItem} {q : ℚ} (hx : x.price ≠ q) :
    ∀ l : List CompareItem,
      (List.orderedInsert priceLE x l).filter (fun y => y.price == q)
        = l.filter (fun y => y.price == q)
  | [] => by
    rw [List.orderedInsert_nil, List.filter_cons_of_neg (by simpa using hx)]
  | b :: l => by
    rw [List.orderedInsert]
    by_cases hle : priceLE x b
    · rw [if_pos hle, List.filter_cons_of_neg (by simpa using hx)]
    · rw [if_neg hle]
      by_cases hb : b.price = q
      · rw [List.filter_cons_of_pos (by simpa using hb),
          List.filter_cons_of_pos (by simpa using hb),
          filter_orderedInsert_neg hx l]
      · rw [List.filter_cons_of_neg (by simpa using hb),
          List.filter_cons_of_neg (by simpa using hb),
          filter_orderedInsert_neg hx l]

/-- Stability of the sort: filtering any single amount commutes with
sorting, so equal-amount items keep their input order. -/
theorem filter_insertionSort (q : ℚ) :
    ∀ l : List CompareItem,
      (List.insertionSort priceLE l).filter (fun y => y.price == q)
        = l.filter (fun y => y.price == q)
  | [] => rfl
  | x :: l => by
    rw [List.insertionSort]
    by_cases hx : x.price = q
    · rw [filter_orderedInsert_pos hx, List.filter_cons_of_pos (by simpa using hx),
        filter_insertionSort q l]
    · rw [filter_orderedInsert_neg hx, List.filter_cons_of_neg (by simpa using hx),
        filter_insertionSort q l]

/-- The markets of collected items appear in configured order
(failed markets are simply omitted). -/
theorem collectItems_ok_shape {resolve : String → Except PyExc ℚ} {asin : String} :
    ∀ {countries : List String} {items : List CompareItem},
      collectItems resolve asin countries = .ok items →
      List.Sublist (items.map CompareItem.country) countries
  | [], items, h => by
    rw [collectItems] at h
    cases h
    exact List.nil_sublist []
  | c :: rest, items, h => by
    rw [collectItems] at h
    rcases hr : resolve c with e | q
    · simp only [hr] at h
      by_cases hh : e.isHTTP = true
      · rw [if_pos hh] at h
        exact (collectItems_ok_shape h).cons c
      · rw [if_neg hh] at h
        cases h
    · simp only [hr] at h
      rcases hl : affiliate_link asin c with _ | link
      · simp only [hl] at h
        cases h
      · simp only [hl] at h
        rcases hc : collectItems resolve asin rest with e2 | items2
        · simp only [hc, Except.map] at h
          cases h
        · simp only [hc, Except.map] at h
          cases h
          exact (collectItems_ok_shape hc).cons₂ c

/-- C6: whenever a comparison run returns an item list, that list is
sorted ascending by amount, and items with equal amounts appear in the
same relative order as their markets appear in the configured market
list (Python's stable `list.sort` on the list built in configured
market order). -/
theorem claim_C6 (countries : List String) (resolve : String → Except PyExc ℚ)
    (input : String) (resp : CompareResponse)
    (h : compare countries resolve input = .ok resp) :
    List.Sorted priceLE resp.items ∧ TiesInMarketOrder countries resp.items := by
  rw [compare] at h
  rcases he : extract_asin input with _ | asin
  · simp only [he] at h
    cases h
  · simp only [he] at h
    rcases hc : collectItems resolve asin countries with e | items
    · simp only [hc] at h
      cases h
    · simp only [hc] at h
      by_cases hempty : List.insertionSort priceLE items = []
      · rw [if_pos hempty] at h
        cases h
      · rw [if_neg hempty] at h
        cases h
        constructor
        · exact List.sorted_insertionSort priceLE items
        · intro q
          show List.Sublist _ countries
          rw [filter_insertionSort q items]
          exact (List.Sublist.map CompareItem.country
            (List.filter_sublist items)).trans (collectItems_ok_shape hc)

/-- C6 witness: three configured markets returning 19.99 (FR), 15.50
(DE) and a failure (BE) produce exactly two items ordered
[15.50 (DE), 19.99 (FR)], sorted and tie-stable. -/
theorem claim_C6_witness :
    compare ALLOWED_COUNTRIES
      (fun c => if c = "FR" then .ok (1999 / 100)
                else if c = "DE" then .ok (1550 / 100)
                else .error (.httpExc 502)) "B0C1234ABC"
      = .ok ⟨"B0C1234ABC",
          [⟨"DE", 1550 / 100, "EUR", "https://amazon.de/dp/B0C1234ABC"⟩,
           ⟨"FR", 1999 / 100, "EUR", "https://amazon.fr/dp/B0C1234ABC"⟩]⟩ ∧
    List.Sorted priceLE
      [⟨"DE", 1550 / 100, "EUR", "https://amazon.de/dp/B0C1234ABC"⟩,
       ⟨"FR", 1999 / 100, "EUR", "https://amazon.fr/dp/B0C1234ABC"⟩] ∧
    TiesInMarketOrder ALLOWED_COUNTRIES
      [⟨"DE", 1550 / 100, "EUR", "https://amazon.de/dp/B0C1234ABC"⟩,
       ⟨"FR", 1999 / 100, "EUR", "https://amazon.fr/dp/B0C1234ABC"⟩] := by
  have hsort : List.insertionSort priceLE
      [(⟨"FR", 1999 / 100, "EUR", "https://amazon.fr/dp/B0C1234ABC"⟩ : CompareItem),
       ⟨"DE", 1550 / 100, "EUR", "https://amazon.de/dp/B0C1234ABC"⟩]
      = [⟨"DE", 1550 / 100, "EUR", "https://amazon.de/dp/B0C1234ABC"⟩,
         ⟨"FR", 1999 / 100, "EUR", "https://amazon.fr/dp/B0C1234ABC"⟩] := by
    show List.orderedInsert priceLE _ (List.orderedInsert priceLE _ []) = _
    rw [List.orderedInsert_nil, List.orderedInsert,
      if_neg (by rw [priceLE]; norm_num)]
    rfl
  have h : compare ALLOWED_COUNTRIES
      (fun c => if c = "FR" then .ok (1999 / 100)
                else if c = "DE" then .ok (1550 / 100)
                else .error (.httpExc 502)) "B0C1234ABC"
      = .ok ⟨"B0C1234ABC",
          [⟨"DE", 1550 / 100, "EUR", "https://amazon.de/dp/B0C1234ABC"⟩,
           ⟨"FR", 1999 / 100, "EUR", "https://amazon.fr/dp/B0C1234ABC"⟩]⟩ := by
    have h0 : compare ALLOWED_COUNTRIES
        (fun c => if c = "FR" then .ok (1999 / 100)
                  else if c = "DE" then .ok (1550 / 100)
                  else .error (.httpExc 502)) "B0C1234ABC"
        = (if List.insertionSort priceLE
              [(⟨"FR", 1999 / 100, "EUR", "https://amazon.fr/dp/B0C1234ABC"⟩ : CompareItem),
               ⟨"DE", 1550 / 100, "EUR", "https://amazon.de/dp/B0C1234ABC"⟩] = []
           then .error .notFound
           else .ok ⟨"B0C1234ABC", List.insertionSort priceLE
              [⟨"FR", 1999 / 100, "EUR", "https://amazon.fr/dp/B0C1234ABC"⟩,
               ⟨"DE", 1550 / 100, "EUR", "https://amazon.de/dp/B0C1234ABC"⟩]⟩) := rfl
    rw [h0, hsort, if_neg (by simp)]
  have hconc := claim_C6 _ _ _ _ h
  exact ⟨h, hconc.1, hconc.2⟩

/-! ## Claim C7: all markets failing yields the not-found error -/

/-- When every market fails with the resolver's `HTTPException`, the
collection loop produces the empty list (each failure is caught and
the market skipped). -/
theorem collectItems_all_fail {resolve : String → Except PyExc ℚ} {asin : String} :
    ∀ {countries : List String},
      (∀ c ∈ countries, ∃ e, resolve c = .error e ∧ e.isHTTP = true) →
      collectItems resolve asin countries = .ok []
  | [], _ => rfl
  | c :: rest, h => by
    obtain ⟨e, he, hh⟩ := h c (by simp)
    rw [collectItems]
    simp only [he]
    rw [if_pos hh]
    exact collectItems_all_fail (fun d hd => h d (by simp [hd]))

/-- C7: if every configured market's resolution fails (raising the
`HTTPException` that is the resolver's failure signal), the orchestrator
raises the not-found error; and no successful response ever carries an
empty item list — failed markets are omitted, never padded. -/
theorem claim_C7 (countries : List String) (resolve : String → Except PyExc ℚ)
    (input : String) :
    ((∀ c ∈ countries, ∃ e, resolve c = .error e ∧ e.isHTTP = true) →
      ∀ asin, extract_asin input = some asin →
        compare countries resolve input = .error .notFound) ∧
    (∀ resp, compare countries resolve input = .ok resp → resp.items ≠ []) := by
  constructor
  · intro hfail asin hasin
    rw [compare]
    simp only [hasin, collectItems_all_fail hfail]
    rfl
  · intro resp h
    rw [compare] at h
    rcases he : extract_asin input with _ | asin
    · simp only [he] at h
      cases h
    · simp only [he] at h
      rcases hc : collectItems resolve asin countries with e | items
      · simp only [hc] at h
        cases h
      · simp only [hc] at h
        by_cases hempty : List.insertionSort priceLE items = []
        · rw [if_pos hempty] at h
          cases h
        · rw [if_neg hempty] at h
          cases h
          exact hempty

/-- C7 witness: all three configured markets failing with an upstream
502 makes the comparison raise the not-found error. -/
theorem claim_C7_witness :
    compare ALLOWED_COUNTRIES (fun _ => .error (.httpExc 502)) "B0C1234ABC"
      = .error .notFound :=
  (claim_C7 ALLOWED_COUNTRIES (fun _ => .error (.httpExc 502)) "B0C1234ABC").1
    (fun c _ => ⟨.httpExc 502, rfl, rfl⟩) "B0C1234ABC" (by decide)

/-! ## The alert-evaluation loop, one row at a time -/

/-- Unfolding of one iteration of the `run_alerts` loop. -/
theorem run_alerts_cons (resolve : String → String → Except PyExc ℚ)
    (sendOk : AlertRow → ℚ → Bool) (a : AlertRow) (rest : List AlertRow) :
    run_alerts resolve sendOk (a :: rest)
      = match resolve a.asin a.country with
        | .error _ => run_alerts resolve sendOk rest
        | .ok p =>
          if p ≤ a.target_price then
            match COUNTRY_TO_DOMAIN a.country with
            | none => run_alerts resolve sendOk rest
            | some _ =>
              if sendOk a p then
                ⟨⟨a.email, a.asin, a.country, p⟩ :: (run_alerts resolve sendOk rest).sent,
                 (a, p) :: (run_alerts resolve sendOk rest).notified⟩
              else
                ⟨(run_alerts resolve sendOk rest).sent,
                 (a, p) :: (run_alerts resolve sendOk rest).notified⟩
          else run_alerts resolve sendOk rest := rfl

/-- The loop is concatenative: each row contributes independently. -/
theorem run_alerts_append (resolve : String → String → Except PyExc ℚ)
    (sendOk : AlertRow → ℚ → Bool) :
    ∀ (xs ys : List AlertRow),
      (run_alerts resolve sendOk (xs ++ ys)).sent
          = (run_alerts resolve sendOk xs).sent ++ (run_alerts resolve sendOk ys).sent ∧
      (run_alerts resolve sendOk (xs ++ ys)).notified
          = (run_alerts resolve sendOk xs).notified
            ++ (run_alerts resolve sendOk ys).notified
  | [], ys => ⟨rfl, rfl⟩
  | a :: xs, ys => by
    have ih := run_alerts_append resolve sendOk xs ys
    rw [List.cons_append, run_alerts_cons, run_alerts_cons]
    rcases hr : resolve a.asin a.country with e | p
    · exact ih
    · dsimp only
      by_cases ht : p ≤ a.target_price
      · rw [if_pos ht, if_pos ht]
        rcases hd : COUNTRY_TO_DOMAIN a.country with _ | d
        · exact ih
        · dsimp only
          by_cases hs : sendOk a p = true
          · rw [if_pos hs, if_pos hs]
            exact ⟨by simp [ih.1], by simp [ih.2]⟩
          · rw [if_neg hs, if_neg hs]
            exact ⟨by simp [ih.1], by simp [ih.2]⟩
      · rw [if_neg ht, if_neg ht]
        exact ih

/-! ## Claim C8: threshold comparison governs the sent list -/

/-- C8 counterexample: an alert with target 20.00 whose price resolves
to 19.50 (so resolution succeeds and the amount is at or below target),
yet whose contact is *not* in the returned sent list — the notifier
send fails and the per-alert `except Exception` handler swallows the
failure before `sent.append` runs.  This refutes the claimed
"if and only if". -/
theorem claim_C8_counterexample :
    (fun _ _ => (.ok (39 / 2) : Except PyExc ℚ)) "B0C1234ABC" "FR" = .ok (39 / 2) ∧
    (39 / 2 : ℚ) ≤ 20 ∧
    (run_alerts (fun _ _ => .ok (39 / 2)) (fun _ _ => false)
      [⟨"B0C1234ABC", "FR", 20, "x@y.z"⟩]).sent = [] := by
  refine ⟨rfl, by norm_num, ?_⟩
  rw [run_alerts_cons]
  dsimp only
  rw [if_pos (show (39 / 2 : ℚ) ≤ 20 by norm_num)]
  rfl

/-- C8 (amended): for a stored WatchRequest whose price resolution
succeeds with amount `p` on a configured market, *and whose
notification send succeeds*, the row's contribution to the sent list
is its contact exactly when `p ≤ target` (e.g. 19.50 ≤ 20.00 is sent,
20.01 is not); rows before and after it contribute independently. -/
theorem claim_C8_amended (pre post : List AlertRow) (a : AlertRow)
    (resolve : String → String → Except PyExc ℚ) (sendOk : AlertRow → ℚ → Bool)
    (p : ℚ) (hres : resolve a.asin a.country = .ok p)
    (hdom : (COUNTRY_TO_DOMAIN a.country).isSome = true)
    (hsend : sendOk a p = true) :
    (run_alerts resolve sendOk (pre ++ a :: post)).sent
      = (run_alerts resolve sendOk pre).sent
        ++ (if p ≤ a.target_price then [⟨a.email, a.asin, a.country, p⟩] else [])
        ++ (run_alerts resolve sendOk post).sent := by
  rw [(run_alerts_append resolve sendOk pre (a :: post)).1, List.append_assoc]
  congr 1
  rw [run_alerts_cons]
  simp only [hres]
  obtain ⟨d, hd⟩ := Option.isSome_iff_exists.mp hdom
  by_cases ht : p ≤ a.target_price
  · rw [if_pos ht, if_pos ht]
    simp only [hd]
    rw [if_pos hsend]
    rfl
  · rw [if_neg ht, if_neg ht]
    simp

/-- C8 amended-claim witness: with a succeeding notifier, target 20.00
and resolved 19.50 the contact is the row's contribution; the theorem
instantiated at a one-row store. -/
theorem claim_C8_amended_witness :
    (run_alerts (fun _ _ => .ok (39 / 2)) (fun _ _ => true)
      ([] ++ ⟨"B0C1234ABC", "FR", 20, "x@y.z"⟩ :: [])).sent
      = [] ++ (if (39 / 2 : ℚ) ≤ 20
               then [⟨"x@y.z", "B0C1234ABC", "FR", 39 / 2⟩] else []) ++ [] ∧
    (39 / 2 : ℚ) ≤ 20 :=
  ⟨claim_C8_amended [] [] ⟨"B0C1234ABC", "FR", 20, "x@y.z"⟩
    (fun _ _ => .ok (39 / 2)) (fun _ _ => true) (39 / 2) rfl (by decide) rfl,
   by norm_num⟩

/-! ## Claim C9: notifier failures do not propagate -/

/-- C9 counterexample: the first alert's notifier send fails while its
threshold is met, yet the evaluation run does not propagate the
failure: it completes normally, continues with the second alert and
returns its sent entry.  (The claim asserted the failure propagates
out of the run.) -/
theorem claim_C9_counterexample :
    (fun (a : AlertRow) (_ : ℚ) => a.email != "fail@x.y")
        ⟨"B0C1234ABC", "FR", 20, "fail@x.y"⟩ (39 / 2) = false ∧
    (39 / 2 : ℚ) ≤ 20 ∧
    (run_alerts (fun _ _ => .ok (39 / 2))
      (fun a _ => a.email != "fail@x.y")
      [⟨"B0C1234ABC", "FR", 20, "fail@x.y"⟩,
       ⟨"B0C1234ABC", "DE", 20, "ok@x.y"⟩]).sent
      = [⟨"ok@x.y", "B0C1234ABC", "DE", 39 / 2⟩] := by
  refine ⟨by decide, by norm_num, ?_⟩
  rw [run_alerts_cons]
  dsimp only
  rw [if_pos (show (39 / 2 : ℚ) ≤ 20 by norm_num)]
  rw [show (COUNTRY_TO_DOMAIN "FR") = some "amazon.fr" from rfl]
  dsimp only
  rw [if_neg (by decide)]
  rw [run_alerts_cons]
  dsimp only
  rw [if_pos (show (39 / 2 : ℚ) ≤ 20 by norm_num)]
  rw [show (COUNTRY_TO_DOMAIN "DE") = some "amazon.de" from rfl]
  dsimp only
  rw [if_pos (by decide)]
  rfl

/-- C9 (amended): a Notifier failure *is* caught by the per-alert
`except Exception` handler: for a row whose resolution succeeds, whose
threshold is met, and whose send fails, the run's sent list is exactly
what it would be with the row absent — the failure is swallowed, the
batch continues, and the row is not recorded. -/
theorem claim_C9_amended (pre post : List AlertRow) (a : AlertRow)
    (resolve : String → String → Except PyExc ℚ) (sendOk : AlertRow → ℚ → Bool)
    (p : ℚ) (hres : resolve a.asin a.country = .ok p)
    (ht : p ≤ a.target_price) (hsend : sendOk a p = false) :
    (run_alerts resolve sendOk (pre ++ a :: post)).sent
      = (run_alerts resolve sendOk (pre ++ post)).sent := by
  rw [(run_alerts_append resolve sendOk pre (a :: post)).1,
    (run_alerts_append resolve sendOk pre post).1]
  congr 1
  rw [run_alerts_cons]
  simp only [hres]
  rw [if_pos ht]
  rcases hd : COUNTRY_TO_DOMAIN a.country with _ | d
  · rfl
  · dsimp only
    rw [if_neg (by simp [hsend])]

/-- C9 amended-claim witness: the theorem instantiated at a one-row
store whose notifier fails — the sent list equals that of the empty
store. -/
theorem claim_C9_amended_witness :
    (run_alerts (fun _ _ => .ok (39 / 2)) (fun _ _ => false)
      ([] ++ ⟨"B0C1234ABC", "FR", 20, "x@y.z"⟩ :: [])).sent
      = (run_alerts (fun _ _ => .ok (39 / 2)) (fun _ _ => false)
          ([] ++ [])).sent ∧
    (39 / 2 : ℚ) ≤ 20 :=
  ⟨claim_C9_amended [] [] ⟨"B0C1234ABC", "FR", 20, "x@y.z"⟩
    (fun _ _ => .ok (39 / 2)) (fun _ _ => false) (39 / 2) rfl (by norm_num) rfl,
   by norm_num⟩

/-! ## Claim C10: unmapped markets are silently skipped -/

/-- Every row the loop ever calls `send_email` for has a configured
market (the resolver and `affiliate_link` both look its domain up
first). -/
theorem run_alerts_notified_mapped (resolve : String → String → Except PyExc ℚ)
    (sendOk : AlertRow → ℚ → Bool) :
    ∀ {alerts : List AlertRow} {r : AlertRow} {p : ℚ},
      (r, p) ∈ (run_alerts resolve sendOk alerts).notified →
      (COUNTRY_TO_DOMAIN r.country).isSome = true
  | [], r, p, h => by cases h
  | a :: rest, r, p, h => by
    rw [run_alerts_cons] at h
    rcases hr : resolve a.asin a.country with e | q
    · rw [hr] at h
      exact run_alerts_notified_mapped resolve sendOk h
    · rw [hr] at h
      dsimp only at h
      by_cases ht : q ≤ a.target_price
      · rw [if_pos ht] at h
        rcases hd : COUNTRY_TO_DOMAIN a.country with _ | d
        · rw [hd] at h
          exact run_alerts_notified_mapped resolve sendOk h
        · rw [hd] at h
          dsimp only at h
          by_cases hs : sendOk a q = true
          · rw [if_pos hs] at h
            rcases List.mem_cons.mp h with heq | h'
            · have : r = a := (Prod.mk.injEq .. |>.mp heq).1
              rw [this, hd]
              rfl
            · exact run_alerts_notified_mapped resolve sendOk h'
          · rw [if_neg hs] at h
            rcases List.mem_cons.mp h with heq | h'
            · have : r = a := (Prod.mk.injEq .. |>.mp heq).1
              rw [this, hd]
              rfl
            · exact run_alerts_notified_mapped resolve sendOk h'
      · rw [if_neg ht] at h
        exact run_alerts_notified_mapped resolve sendOk h

/-- Every item in the sent list carries a configured market. -/
theorem run_alerts_sent_mapped (resolve : String → String → Except PyExc ℚ)
    (sendOk : AlertRow → ℚ → Bool) :
    ∀ {alerts : List AlertRow} {it : SentItem},
      it ∈ (run_alerts resolve sendOk alerts).sent →
      (COUNTRY_TO_DOMAIN it.country).isSome = true
  | [], it, h => by cases h
  | a :: rest, it, h => by
    rw [run_alerts_cons] at h
    rcases hr : resolve a.asin a.country with e | q
    · rw [hr] at h
      exact run_alerts_sent_mapped resolve sendOk h
    · rw [hr] at h
      dsimp only at h
      by_cases ht : q ≤ a.target_price
      · rw [if_pos ht] at h
        rcases hd : COUNTRY_TO_DOMAIN a.country with _ | d
        · rw [hd] at h
          exact run_alerts_sent_mapped resolve sendOk h
        · rw [hd] at h
          dsimp only at h
          by_cases hs : sendOk a q = true
          · rw [if_pos hs] at h
            rcases List.mem_cons.mp h with heq | h'
            · have : it.country = a.country := by rw [heq]
              rw [this, hd]
              rfl
            · exact run_alerts_sent_mapped resolve sendOk h'
          · rw [if_neg hs] at h
            exact run_alerts_sent_mapped resolve sendOk h
      · rw [if_neg ht] at h
        exact run_alerts_sent_mapped resolve sendOk h

/-- C10: a stored WatchRequest whose market is not one of the
configured markets (in particular the documented market-or-"any" value
`"ANY"`) is silently skipped by every alert-evaluation run: with
credentials configured, the resolver raises `KeyError` at the
market-to-domain lookup (first conjunct); the per-alert handler
swallows the exception, the Notifier is never invoked for the row
(second conjunct), and no sent entry carries its data (third
conjunct). -/
theorem claim_C10 (creds : Bool) (envOf : String → String → UpEnv)
    (sendOk : AlertRow → ℚ → Bool) (alerts : List AlertRow) (a : AlertRow)
    (_hmem : a ∈ alerts) (hdom : COUNTRY_TO_DOMAIN a.country = none) :
    resolveViaOxylabs true envOf a.asin a.country = .error .keyError ∧
    (∀ p : ℚ, (a, p) ∉ (run_alerts (resolveViaOxylabs creds envOf) sendOk alerts).notified) ∧
    (∀ p : ℚ, (⟨a.email, a.asin, a.country, p⟩ : SentItem)
      ∉ (run_alerts (resolveViaOxylabs creds envOf) sendOk alerts).sent) := by
  refine ⟨?_, ?_, ?_⟩
  · rw [resolveViaOxylabs, oxylabs_amazon_price, if_neg (by simp)]
    simp only [hdom]
  · intro p hp
    have hmap := run_alerts_notified_mapped (resolveViaOxylabs creds envOf) sendOk hp
    rw [hdom] at hmap
    cases hmap
  · intro p hp
    have hmap := run_alerts_sent_mapped (resolveViaOxylabs creds envOf) sendOk hp
    rw [show (⟨a.email, a.asin, a.country, p⟩ : SentItem).country = a.country from rfl,
      hdom] at hmap
    cases hmap

/-- C10 witness: a store holding one alert for market `"ANY"`; the
lookup fails, the notifier is not invoked, nothing is sent. -/
theorem claim_C10_witness :
    COUNTRY_TO_DOMAIN "ANY" = none ∧
    resolveViaOxylabs true
      (fun _ _ => ⟨.ok (.dict ⟨none, some (.pnum 10), none⟩),
                   .ok ⟨[], none, none, none, none, none, none, none, []⟩⟩)
      "B0C1234ABC" "ANY" = .error .keyError ∧
    ((⟨"B0C1234ABC", "ANY", 20, "x@y.z"⟩ : AlertRow), (10 : ℚ))
      ∉ (run_alerts
          (resolveViaOxylabs true
            (fun _ _ => ⟨.ok (.dict ⟨none, some (.pnum 10), none⟩),
                         .ok ⟨[], none, none, none, none, none, none, none, []⟩⟩))
          (fun _ _ => true)
          [⟨"B0C1234ABC", "ANY", 20, "x@y.z"⟩]).notified ∧
    (⟨"x@y.z", "B0C1234ABC", "ANY", (10 : ℚ)⟩ : SentItem)
      ∉ (run_alerts
          (resolveViaOxylabs true
            (fun _ _ => ⟨.ok (.dict ⟨none, some (.pnum 10), none⟩),
                         .ok ⟨[], none, none, none, none, none, none, none, []⟩⟩))
          (fun _ _ => true)
          [⟨"B0C1234ABC", "ANY", 20, "x@y.z"⟩]).sent := by
  have h := claim_C10 true
    (fun _ _ => ⟨.ok (.dict ⟨none, some (.pnum 10), none⟩),
                 .ok ⟨[], none, none, none, none, none, none, none, []⟩⟩)
    (fun _ _ => true)
    [⟨"B0C1234ABC", "ANY", 20, "x@y.z"⟩]
    ⟨"B0C1234ABC", "ANY", 20, "x@y.z"⟩
    (by simp) (by decide)
  exact ⟨by decide, h.1, h.2.1 10, h.2.2 10⟩

end AmaHunter
